import Mathlib

/-!
Verification of the contact-scraper application (`app.py`).

Python strings are modelled as `List Char` (lists of Unicode scalar values).
The pure core of the program — the regex-based contact extractor, the
whitespace normalizer, the display-width calculator, the padding and table
rendering logic, and the deduplicating store — is embedded below; the
network fetch and Tk widgets are external collaborators and are modelled
only through the data they hand to the core.
-/

set_option autoImplicit false
set_option maxRecDepth 20000

/-- Unicode East-Asian-width categories, as returned by
`unicodedata.east_asian_width`. -/
inductive EAWClass where
  | F | H | W | Na | A | N
  deriving DecidableEq

/-- Models `unicodedata.east_asian_width` (Unicode EastAsianWidth.txt) for
the code-point ranges relevant to this program: all of ASCII is `N`/`Na`,
the main CJK/Hangul/Kana blocks are `W`, the fullwidth forms block and the
ideographic space are `F`, halfwidth forms are `H`, and the Latin-1
ambiguous characters are `A`. -/
def eaw_of_nat (n : Nat) : EAWClass :=
  if n < 0x20 then .N
  else if n < 0x7F then .Na
  else if n < 0xA1 then .N
  else if n = 0x20A9 then .H
  else if n = 0x3000 then .F
  else if 0xFF01 ≤ n ∧ n ≤ 0xFF60 then .F
  else if 0xFFE0 ≤ n ∧ n ≤ 0xFFE6 then .F
  else if 0xFF61 ≤ n ∧ n ≤ 0xFFDC then .H
  else if 0xFFE8 ≤ n ∧ n ≤ 0xFFEE then .H
  else if 0x1100 ≤ n ∧ n ≤ 0x115F then .W
  else if 0x2E80 ≤ n ∧ n ≤ 0x303E then .W
  else if 0x3041 ≤ n ∧ n ≤ 0x33FF then .W
  else if 0x3400 ≤ n ∧ n ≤ 0x4DBF then .W
  else if 0x4E00 ≤ n ∧ n ≤ 0x9FFF then .W
  else if 0xA000 ≤ n ∧ n ≤ 0xA4CF then .W
  else if 0xAC00 ≤ n ∧ n ≤ 0xD7A3 then .W
  else if 0xF900 ≤ n ∧ n ≤ 0xFAFF then .W
  else if 0xFE30 ≤ n ∧ n ≤ 0xFE4F then .W
  else if 0x1F300 ≤ n ∧ n ≤ 0x1F64F then .W
  else if 0x20000 ≤ n ∧ n ≤ 0x2FFFD then .W
  else if 0x30000 ≤ n ∧ n ≤ 0x3FFFD then .W
  else if n = 0xA1 ∨ n = 0xA4 ∨ (0xA7 ≤ n ∧ n ≤ 0xA8) ∨ n = 0xAA ∨
          (0xAD ≤ n ∧ n ≤ 0xAE) ∨ (0xB0 ≤ n ∧ n ≤ 0xB4) ∨
          (0xB6 ≤ n ∧ n ≤ 0xBA) ∨ (0xBC ≤ n ∧ n ≤ 0xBF) ∨ n = 0xC6 ∨
          n = 0xD0 ∨ (0xD7 ≤ n ∧ n ≤ 0xD8) ∨ (0xDE ≤ n ∧ n ≤ 0xE1) ∨
          n = 0xE6 ∨ (0xE8 ≤ n ∧ n ≤ 0xEA) ∨ (0xEC ≤ n ∧ n ≤ 0xED) ∨
          n = 0xF0 ∨ (0xF2 ≤ n ∧ n ≤ 0xF3) ∨ (0xF7 ≤ n ∧ n ≤ 0xFA) ∨
          n = 0xFC ∨ n = 0xFE then .A
  else .N

/-- Classification of one character, `unicodedata.east_asian_width(ch)`. -/
def east_asian_width (c : Char) : EAWClass :=
  eaw_of_nat c.toNat

theorem eaw_of_nat_ascii (n : Nat) (h : n < 128) :
    eaw_of_nat n = EAWClass.N ∨ eaw_of_nat n = EAWClass.Na := by
  unfold eaw_of_nat
  by_cases h1 : n < 0x20
  · rw [if_pos h1]; exact Or.inl rfl
  · by_cases h2 : n < 0x7F
    · rw [if_neg h1, if_pos h2]; exact Or.inr rfl
    · rw [if_neg h1, if_neg h2, if_pos (by omega)]; exact Or.inl rfl

/-- Embeds `get_display_width` (app.py lines 91-99): a running total over
the characters, adding 2 for an `F`/`W`/`A` character and 1 otherwise. -/
def get_display_width (s : List Char) : Nat :=
  s.foldl
    (fun width ch =>
      if east_asian_width ch = EAWClass.F ∨ east_asian_width ch = EAWClass.W ∨
          east_asian_width ch = EAWClass.A then
        width + 2
      else
        width + 1)
    0

/-- Width contributed by one character, per the classification used in
`get_display_width`. -/
def char_width (c : Char) : Nat :=
  if east_asian_width c = EAWClass.F ∨ east_asian_width c = EAWClass.W ∨
      east_asian_width c = EAWClass.A then 2 else 1

/-- Embeds `pad_string` (app.py lines 101-104):
`s + ' ' * max(total_width - get_display_width(s), 0)`. The width is an
integer, as in the source. -/
def pad_string (s : List Char) (total_width : Int) : List Char :=
  s ++ List.replicate (max (total_width - (get_display_width s : Int)) 0).toNat ' '

theorem get_display_width_foldl_add (s : List Char) (n : Nat) :
    s.foldl
      (fun width ch =>
        if east_asian_width ch = EAWClass.F ∨ east_asian_width ch = EAWClass.W ∨
            east_asian_width ch = EAWClass.A then
          width + 2
        else
          width + 1)
      n = n + (s.map char_width).sum := by
  induction s generalizing n with
  | nil => simp
  | cons c t ih =>
    simp only [List.foldl_cons, List.map_cons, List.sum_cons, char_width]
    by_cases h : east_asian_width c = EAWClass.F ∨ east_asian_width c = EAWClass.W ∨
        east_asian_width c = EAWClass.A
    · rw [if_pos h, if_pos h, ih]; omega
    · rw [if_neg h, if_neg h, ih]; omega

theorem get_display_width_eq_sum (s : List Char) :
    get_display_width s = (s.map char_width).sum := by
  unfold get_display_width
  rw [get_display_width_foldl_add]
  omega

theorem char_width_of_ascii (c : Char) (h : c.toNat < 128) : char_width c = 1 := by
  rcases eaw_of_nat_ascii c.toNat h with h1 | h1 <;>
    simp [char_width, east_asian_width, h1]

theorem char_width_of_wide (c : Char)
    (h : east_asian_width c = EAWClass.F ∨ east_asian_width c = EAWClass.W ∨
      east_asian_width c = EAWClass.A) : char_width c = 2 := by
  unfold char_width
  rw [if_pos h]

/-- C2: `get_display_width` sums, over the characters of the string, 2 for
each character whose East-Asian-width category is `F`, `W` or `A` and 1 for
every other character; it returns 0 on the empty string, the character
count on an all-ASCII string, and twice the character count on an
all-fullwidth string. -/
theorem C2_display_width (s : List Char) :
    get_display_width s = (s.map char_width).sum ∧
    get_display_width ([] : List Char) = 0 ∧
    ((∀ c ∈ s, c.toNat < 128) → get_display_width s = s.length) ∧
    ((∀ c ∈ s, east_asian_width c = EAWClass.F ∨ east_asian_width c = EAWClass.W ∨
        east_asian_width c = EAWClass.A) →
      get_display_width s = 2 * s.length) := by
  refine ⟨get_display_width_eq_sum s, rfl, ?_, ?_⟩
  · intro h
    rw [get_display_width_eq_sum]
    induction s with
    | nil => simp
    | cons c t ih =>
      simp only [List.map_cons, List.sum_cons, List.length_cons]
      rw [char_width_of_ascii c (h c (by simp)), ih (fun d hd => h d (by simp [hd]))]
      omega
  · intro h
    rw [get_display_width_eq_sum]
    induction s with
    | nil => simp
    | cons c t ih =>
      simp only [List.map_cons, List.sum_cons, List.length_cons]
      rw [char_width_of_wide c (h c (by simp)), ih (fun d hd => h d (by simp [hd]))]
      omega

theorem C2_witness :
    get_display_width (("abc").data) = 3 ∧ get_display_width (("名字").data) = 4 := by
  constructor
  · exact (C2_display_width (("abc").data)).2.2.1 (by decide)
  · have h := (C2_display_width (("名字").data)).2.2.2 (by decide)
    simpa using h

/-- A contact record as handled by the program: a (name, title, email)
triple of strings. -/
abbrev Contact : Type := List Char × List Char × List Char

theorem get_display_width_append (s t : List Char) :
    get_display_width (s ++ t) = get_display_width s + get_display_width t := by
  simp [get_display_width_eq_sum]

theorem get_display_width_replicate_space (n : Nat) :
    get_display_width (List.replicate n ' ') = n := by
  rw [get_display_width_eq_sum]
  induction n with
  | zero => simp
  | succ m ih =>
    rw [List.replicate_succ]
    simp only [List.map_cons, List.sum_cons, ih]
    rw [char_width_of_ascii ' ' (by decide)]
    omega

/-- C6: `pad_string` appends exactly the number of ASCII spaces needed for
the display width of the result to reach the column width; a string whose
display width already meets or exceeds the column width is returned
unchanged, and the input is never truncated (it is always an unchanged
initial segment of the output, followed only by spaces). -/
theorem C6_pad (s : List Char) (w : Int) :
    pad_string s w = s ++ List.replicate (w - (get_display_width s : Int)).toNat ' ' ∧
    ((get_display_width s : Int) ≤ w →
      (get_display_width (pad_string s w) : Int) = w) ∧
    (w ≤ (get_display_width s : Int) → pad_string s w = s) ∧
    ∃ t, pad_string s w = s ++ t ∧ ∀ c ∈ t, c = ' ' := by
  have hmax : (max (w - (get_display_width s : Int)) 0).toNat =
      (w - (get_display_width s : Int)).toNat := by omega
  refine ⟨by rw [pad_string, hmax], ?_, ?_, ?_⟩
  · intro h
    rw [pad_string, hmax, get_display_width_append, get_display_width_replicate_space]
    omega
  · intro h
    have h0 : (max (w - (get_display_width s : Int)) 0).toNat = 0 := by omega
    rw [pad_string, h0]
    simp
  · exact ⟨_, rfl, fun c hc => List.eq_of_mem_replicate hc⟩

theorem C6_witness :
    (get_display_width (pad_string (("ab").data) 5) : Int) = 5 ∧
    pad_string (("xyz").data) 2 = ("xyz").data :=
  ⟨(C6_pad (("ab").data) 5).2.1 (by decide),
   (C6_pad (("xyz").data) 2).2.2.1 (by decide)⟩

/-- Newline character appended after each inserted line of the output
widget. -/
def newlineChar : Char := '\n'

/-- Embeds the header list of `display_contacts` (app.py line 116). -/
def headers : List (List Char) := [("姓名").data, ("職稱").data, ("Email").data]

/-- Embeds the column width list of `display_contacts` (app.py line 117). -/
def widths : List Int := [12, 30, 30]

/-- Embeds the header line construction (app.py line 120):
`''.flatten(pad_string(header, width) for header, width in zip(headers, widths))`. -/
def header_line : List Char :=
  ((headers.zip widths).map (fun p => pad_string p.1 p.2)).flatten

/-- Embeds the separator construction (app.py line 122):
`''.flatten('-' * width for width in widths)`. -/
def separator : List Char :=
  (widths.map (fun w => List.replicate w.toNat '-')).flatten

/-- Embeds one data row of `display_contacts` (app.py lines 127-132):
the three cells padded to `widths[0]`, `widths[1]`, `widths[2]` and joined. -/
def row_line (r : Contact) : List Char :=
  pad_string r.1 (widths.getD 0 0) ++ pad_string r.2.1 (widths.getD 1 0) ++
    pad_string r.2.2 (widths.getD 2 0)

/-- Embeds the full text written into the (previously cleared) output
widget by `display_contacts` (app.py lines 112-132): the header line, the
separator line, then one row per contact appended in loop order, each
insert followed by a newline. -/
def display_text (contacts : List Contact) : List Char :=
  contacts.foldl (fun acc r => acc ++ row_line r ++ [newlineChar])
    (header_line ++ [newlineChar] ++ separator ++ [newlineChar])

theorem display_foldl (cs : List Contact) (init : List Char) :
    cs.foldl (fun acc r => acc ++ row_line r ++ [newlineChar]) init =
      init ++ (cs.map (fun r => row_line r ++ [newlineChar])).flatten := by
  induction cs generalizing init with
  | nil => simp
  | cons c t ih =>
    rw [List.foldl_cons, ih]
    simp [List.append_assoc]

/-- C8: the rendered text is the header line, the separator line, and then
exactly one data row per record, produced by mapping the row constructor
over the input list — hence in exactly the input order, with no sorting,
filtering or regrouping; the row list has one entry per record and its
i-th entry renders the i-th record. -/
theorem C8_order (contacts : List Contact) :
    display_text contacts =
      header_line ++ [newlineChar] ++ separator ++ [newlineChar] ++
        (contacts.map (fun r => row_line r ++ [newlineChar])).flatten ∧
    (contacts.map (fun r => row_line r ++ [newlineChar])).length = contacts.length ∧
    ∀ i : Nat, (contacts.map row_line)[i]? = (contacts[i]?).map row_line := by
  refine ⟨?_, by simp, ?_⟩
  · rw [display_text, display_foldl]
  · intro i
    simp [List.getElem?_map]

/-- C5 counterexample: padding the record name `"名字"` to the name-column
width 12 appends 8 trailing spaces (the two characters have display width
4), not the 10 spaces the claim states. -/
theorem C5_counterexample :
    pad_string (("名字").data) 12 ≠ ("名字").data ++ List.replicate 10 ' ' := by
  decide

/-- C5 (amended): rendering the single record ("名字","Title","e@x.com")
with column widths 12/30/30 yields the header row, a dash separator row of
total length 72, and one data row; the first cell of the data row is the
name followed by exactly 8 trailing ASCII spaces (the two full-width
characters occupy 4 display columns, so 12 − 4 = 8 spaces are added). -/
theorem C5_amended_render :
    display_text [((("名字").data, ("Title").data, ("e@x.com").data))] =
      header_line ++ [newlineChar] ++ separator ++ [newlineChar] ++
        row_line ((("名字").data, ("Title").data, ("e@x.com").data)) ++ [newlineChar] ∧
    separator.length = 72 ∧
    pad_string (("名字").data) 12 = ("名字").data ++ List.replicate 8 ' ' := by
  refine ⟨?_, by decide, by decide⟩
  rw [display_text, display_foldl]
  simp [List.append_assoc]

/-- Embeds the insertion of one row by `save_to_database` (app.py lines
39-47): the `INSERT` succeeds unless the `UNIQUE` constraint on `email` is
violated, in which case the `sqlite3.IntegrityError` is caught and the
record ignored. The table is modelled as the list of stored rows in
insertion order. -/
def insert_contact (db : List Contact) (r : Contact) : List Contact :=
  if r.2.2 ∈ db.map (fun x => x.2.2) then db else db ++ [r]

/-- Embeds `save_to_database` (app.py lines 31-49): the rows are inserted
one by one in sequence order. -/
def save_to_database (db : List Contact) (contacts : List Contact) : List Contact :=
  contacts.foldl insert_contact db

theorem mem_emails_insert (db : List Contact) (r : Contact) (e : List Char)
    (h : e ∈ db.map (fun x => x.2.2)) :
    e ∈ (insert_contact db r).map (fun x => x.2.2) := by
  unfold insert_contact
  split
  · exact h
  · simp only [List.map_append, List.mem_append]
    exact Or.inl h

theorem mem_emails_insert_self (db : List Contact) (r : Contact) :
    r.2.2 ∈ (insert_contact db r).map (fun x => x.2.2) := by
  unfold insert_contact
  split
  next h => exact h
  next h => simp

theorem mem_emails_save (db : List Contact) (cs : List Contact) (e : List Char)
    (h : e ∈ db.map (fun x => x.2.2)) :
    e ∈ (save_to_database db cs).map (fun x => x.2.2) := by
  induction cs generalizing db with
  | nil => exact h
  | cons c t ih =>
    exact ih (insert_contact db c) (mem_emails_insert db c e h)

theorem mem_emails_save_of_mem (db : List Contact) (cs : List Contact) (r : Contact)
    (h : r ∈ cs) : r.2.2 ∈ (save_to_database db cs).map (fun x => x.2.2) := by
  induction cs generalizing db with
  | nil => cases h
  | cons c t ih =>
    rcases List.mem_cons.mp h with rfl | hmem
    · exact mem_emails_save (insert_contact db r) t r.2.2
        (mem_emails_insert_self db r)
    · exact ih (insert_contact db c) hmem

theorem save_fixed_of_emails_present (db : List Contact) (cs : List Contact)
    (h : ∀ r ∈ cs, r.2.2 ∈ db.map (fun x => x.2.2)) :
    save_to_database db cs = db := by
  induction cs with
  | nil => rfl
  | cons c t ih =>
    have hc : insert_contact db c = db := by
      unfold insert_contact
      rw [if_pos (h c (by simp))]
    show save_to_database (insert_contact db c) t = db
    rw [hc]
    exact ih (fun r hr => h r (by simp [hr]))

theorem insert_nodup (db : List Contact) (r : Contact)
    (h : (db.map (fun x => x.2.2)).Nodup) :
    ((insert_contact db r).map (fun x => x.2.2)).Nodup := by
  unfold insert_contact
  split
  next hmem => exact h
  next hmem =>
    simp only [List.map_append, List.map_cons, List.map_nil]
    rw [List.nodup_append]
    exact ⟨h, List.nodup_singleton _, by simpa using fun hx => hmem hx⟩

/-- C3: the store skips a record whose email is already present (leaving
the stored rows unchanged — first-write-wins) and appends any other
record; every email of the saved sequence is present afterwards; saving
the same sequence a second time changes nothing; email-uniqueness of the
stored rows is preserved; and saving the two records of the spec's example
into an empty store keeps only the first. -/
theorem C3_save_dedup :
    (∀ (db : List Contact) (r : Contact),
      (r.2.2 ∈ db.map (fun x => x.2.2) → insert_contact db r = db) ∧
      (r.2.2 ∉ db.map (fun x => x.2.2) → insert_contact db r = db ++ [r])) ∧
    (∀ (db : List Contact) (cs : List Contact) (r : Contact), r ∈ cs →
      r.2.2 ∈ (save_to_database db cs).map (fun x => x.2.2)) ∧
    (∀ (db : List Contact) (cs : List Contact),
      save_to_database (save_to_database db cs) cs = save_to_database db cs) ∧
    (∀ (db : List Contact) (cs : List Contact),
      (db.map (fun x => x.2.2)).Nodup →
        ((save_to_database db cs).map (fun x => x.2.2)).Nodup) ∧
    save_to_database []
        [((("A").data, ("B").data, ("x@y.com").data)),
         ((("A2").data, ("B2").data, ("x@y.com").data))] =
      [((("A").data, ("B").data, ("x@y.com").data))] := by
  refine ⟨?_, mem_emails_save_of_mem, ?_, ?_, by decide⟩
  · intro db r
    constructor
    · intro h; unfold insert_contact; rw [if_pos h]
    · intro h; unfold insert_contact; rw [if_neg h]
  · intro db cs
    exact save_fixed_of_emails_present _ _
      (fun r hr => mem_emails_save_of_mem db cs r hr)
  · intro db cs h
    induction cs generalizing db with
    | nil => exact h
    | cons c t ih =>
      exact ih (insert_contact db c) (insert_nodup db c h)

theorem C3_witness :
    insert_contact [((("A").data, ("B").data, ("x@y.com").data))]
        ((("A2").data, ("B2").data, ("x@y.com").data)) =
      [((("A").data, ("B").data, ("x@y.com").data))] ∧
    ((save_to_database []
        [((("A").data, ("B").data, ("x@y.com").data))]).map
          (fun x => x.2.2)).Nodup :=
  ⟨(C3_save_dedup.1 [((("A").data, ("B").data, ("x@y.com").data))]
      ((("A2").data, ("B2").data, ("x@y.com").data))).1 (by decide),
   C3_save_dedup.2.2.2.1 [] [((("A").data, ("B").data, ("x@y.com").data))]
      (by decide)⟩

/-- The fixed URL constant (app.py line 10). -/
def URL : List Char :=
  ("https://csie.ncut.edu.tw/content.php?key=86OP82WJQO").data

/-- The state of the interactive front end that is relevant to fetching:
the current text of the URL entry widget. -/
structure AppState where
  url_entry_text : List Char

/-- The initial front-end state: `url_entry.insert(0, URL)` (app.py line
149) pre-fills the entry with the URL constant. -/
def initial_state : AppState :=
  ⟨URL⟩

/-- Embeds the choice of fetch target inside `scrape_contacts` (app.py
line 58): `requests.get(URL)` reads the module-level constant and never
consults the entry widget, whatever its current content. -/
def scrape_fetch_url (_st : AppState) : List Char :=
  URL

/-- C9: the target URL actually fetched is always the fixed constant.
Evaluated at the failing input — a front-end state whose entry was edited
to a different URL — the fetched target is still the constant, not the
entry's content, and the entry's initial value is the constant. -/
theorem C9_fetch_ignores_entry :
    scrape_fetch_url ⟨("http://example.org/page").data⟩ = URL ∧
    ("http://example.org/page").data ≠ URL ∧
    initial_state.url_entry_text = URL := by
  refine ⟨rfl, by decide, rfl⟩

/-- Whitespace predicate used by both Python's regex class `\s` (with a
`str` pattern) and `str.strip()`: the ASCII whitespace characters together
with the Unicode whitespace code points. -/
def isWS (c : Char) : Bool :=
  c == ' ' || c == '\t' || c == '\n' || c == '\r' ||
  c.toNat == 0x0B || c.toNat == 0x0C ||
  (0x1C ≤ c.toNat && c.toNat ≤ 0x1F) || c.toNat == 0x85 || c.toNat == 0xA0 ||
  c.toNat == 0x1680 || (0x2000 ≤ c.toNat && c.toNat ≤ 0x200A) ||
  c.toNat == 0x2028 || c.toNat == 0x2029 || c.toNat == 0x202F ||
  c.toNat == 0x205F || c.toNat == 0x3000

/-- Worker for `collapse_ws`. The flag records whether the previous input
character was whitespace (in which case the current run's single output
space has already been emitted). -/
def collapseAux : Bool → List Char → List Char
  | _, [] => []
  | prevWS, c :: rest =>
    if isWS c then
      if prevWS then collapseAux true rest
      else ' ' :: collapseAux true rest
    else c :: collapseAux false rest

/-- Embeds `re.sub(r'\s+', ' ', name)` (app.py line 83): every maximal run
of whitespace characters is replaced by a single ASCII space. -/
def collapse_ws (s : List Char) : List Char :=
  collapseAux false s

/-- Removes the maximal trailing whitespace run of a string. -/
def dropTrailWS : List Char → List Char
  | [] => []
  | c :: t =>
    match dropTrailWS t with
    | [] => if isWS c then [] else [c]
    | r => c :: r

/-- Embeds Python `str.strip()`: removes leading and trailing whitespace. -/
def strip (s : List Char) : List Char :=
  dropTrailWS (s.dropWhile isWS)

/-- Embeds Python `email.replace('//', '')` (app.py line 84): deletes the
non-overlapping occurrences of the two-character substring `//`, scanning
left to right — anywhere in the string. -/
def replace_dslash : List Char → List Char
  | '/' :: '/' :: rest => replace_dslash rest
  | c :: rest => c :: replace_dslash rest
  | [] => []

/-- One element of the compiled contact regex: a literal, a greedy `\s+`,
a greedy `\s*`, a non-capturing lazy gap `.*?` (DOTALL, so it crosses
newlines), or a capturing lazy group `(.*?)`. -/
inductive RElem where
  | lit : List Char → RElem
  | wsPlus : RElem
  | wsStar : RElem
  | lazyGap : RElem
  | lazyGroup : RElem

/-- Literal match test: is the first list an initial run of the second? -/
def litMatch : List Char → List Char → Bool
  | [], _ => true
  | _ :: _, [] => false
  | a :: xs, b :: ys => a == b && litMatch xs ys

/-- Tries `f start`, `f (start+1)`, … for `count` attempts, returning the
first success: the order in which a lazy quantifier explores lengths. -/
def firstRising {α : Type} (f : Nat → Option α) : Nat → Nat → Option α
  | _, 0 => none
  | start, count + 1 =>
    match f start with
    | some a => some a
    | none => firstRising f (start + 1) count

/-- Tries `f m`, `f (m-1)`, …, `f 0`, returning the first success: the
order in which a greedy `\s*` explores lengths. -/
def firstFalling {α : Type} (f : Nat → Option α) : Nat → Option α
  | 0 => f 0
  | m + 1 =>
    match f (m + 1) with
    | some a => some a
    | none => firstFalling f m

/-- Tries `f m`, `f (m-1)`, …, `f 1`, returning the first success: the
order in which a greedy `\s+` explores lengths (at least one character). -/
def firstFallingPos {α : Type} (f : Nat → Option α) : Nat → Option α
  | 0 => none
  | m + 1 =>
    match f (m + 1) with
    | some a => some a
    | none => firstFallingPos f m

/-- Backtracking matcher for a sequence of regex elements against a string
suffix, anchored at its start. Returns the rest of the string after the
match together with the list of captured groups, exploring alternatives in
Python's leftmost-first order: a greedy quantifier tries the longest
whitespace run first, a lazy quantifier the shortest gap first, and the
first full success of the remaining elements wins. -/
def matchSeq : List RElem → List Char → Option (List Char × List (List Char))
  | [], s => some (s, [])
  | RElem.lit l :: ps, s =>
    if litMatch l s then matchSeq ps (s.drop l.length) else none
  | RElem.wsPlus :: ps, s =>
    firstFallingPos (fun k => matchSeq ps (s.drop k)) (s.takeWhile isWS).length
  | RElem.wsStar :: ps, s =>
    firstFalling (fun k => matchSeq ps (s.drop k)) (s.takeWhile isWS).length
  | RElem.lazyGap :: ps, s =>
    firstRising (fun k => matchSeq ps (s.drop k)) 0 (s.length + 1)
  | RElem.lazyGroup :: ps, s =>
    firstRising
      (fun k =>
        match matchSeq ps (s.drop k) with
        | some (rest, gs) => some (rest, s.take k :: gs)
        | none => none)
      0 (s.length + 1)

/-- The compiled contact pattern (app.py line 78), element by element:
`<div\s+class="member_name">.*?<a\s+href="content_teacher_detail\.php\?teacher_rkey=.*?">\s*(.*?)\s*</a>.*?<div\s+class="member_info_content">\s*(.*?)\s*</div>.*?<a\s+href="mailto:(.*?)">`
compiled with `re.DOTALL`. -/
def contact_pattern : List RElem :=
  [RElem.lit (("<div").data), RElem.wsPlus,
   RElem.lit (("class=\"member_name\">").data),
   RElem.lazyGap, RElem.lit (("<a").data), RElem.wsPlus,
   RElem.lit (("href=\"content_teacher_detail.php?teacher_rkey=").data),
   RElem.lazyGap, RElem.lit (("\">").data),
   RElem.wsStar, RElem.lazyGroup, RElem.wsStar, RElem.lit (("</a>").data),
   RElem.lazyGap, RElem.lit (("<div").data), RElem.wsPlus,
   RElem.lit (("class=\"member_info_content\">").data),
   RElem.wsStar, RElem.lazyGroup, RElem.wsStar, RElem.lit (("</div>").data),
   RElem.lazyGap, RElem.lit (("<a").data), RElem.wsPlus,
   RElem.lit (("href=\"mailto:").data),
   RElem.lazyGroup, RElem.lit (("\">").data)]

/-- Scanner behind `pattern.findall` (app.py line 79): at each position,
try to match the contact pattern; on success emit its groups and resume
after the match, otherwise advance one character. The fuel starts at
`length + 1`; since every match of `contact_pattern` consumes at least the
four characters of its leading literal, the scan advances through the
string at least one character per step, so this fuel never runs out. -/
def scanAll : Nat → List Char → List (List (List Char))
  | 0, _ => []
  | fuel + 1, s =>
    match matchSeq contact_pattern s with
    | some (rest, gs) => gs :: scanAll fuel rest
    | none =>
      match s with
      | [] => []
      | _ :: t => scanAll fuel t

/-- Embeds `pattern.findall(html_content)` (app.py line 79): the list of
captured (name, title, email) group triples, in document order. -/
def findall_contacts (html : List Char) : List (List (List Char)) :=
  scanAll (html.length + 1) html

/-- Embeds the per-match processing of `scrape_contacts` (app.py lines
81-85): collapse whitespace runs in the name, delete `//` from the email,
then strip all three fields. -/
def process_match (gs : List (List Char)) : Contact :=
  (strip (collapse_ws (gs.getD 0 [])), strip (gs.getD 1 []),
   strip (replace_dslash (gs.getD 2 [])))

/-- Embeds the pure part of `scrape_contacts` (app.py lines 73-87): the
contact list extracted from an already-fetched page body. The network
fetch and its error dialogs (lines 57-71) are the external transport
collaborator and are not part of the extraction. -/
def scrape_contacts (html : List Char) : List Contact :=
  (findall_contacts html).map process_match

/-- Holds when the string does not start with a whitespace character. -/
def no_lead_ws : List Char → Bool
  | [] => true
  | c :: _ => !isWS c

/-- Holds when the string does not end with a whitespace character. -/
def no_trail_ws : List Char → Bool
  | [] => true
  | [c] => !isWS c
  | _ :: c :: t => no_trail_ws (c :: t)

/-- Holds when every whitespace character of the string is a plain ASCII
space. -/
def all_ws_space (s : List Char) : Bool :=
  s.all (fun c => !isWS c || c == ' ')

/-- Holds when no two adjacent characters of the string are both
whitespace, i.e. every internal whitespace run has length one. -/
def no_adj_ws : List Char → Bool
  | c :: d :: t => (!(isWS c && isWS d)) && no_adj_ws (d :: t)
  | _ => true

theorem all_ws_space_cons (c : Char) (l : List Char) :
    all_ws_space (c :: l) = ((!isWS c || c == ' ') && all_ws_space l) := rfl

theorem no_adj_ws_cons (c : Char) (l : List Char) (h1 : no_adj_ws l = true)
    (h2 : isWS c = false ∨ no_lead_ws l = true) :
    no_adj_ws (c :: l) = true := by
  cases l with
  | nil => rfl
  | cons d t =>
    have hd : (!(isWS c && isWS d)) = true := by
      rcases h2 with h2 | h2
      · simp [h2]
      · simp only [no_lead_ws] at h2
        simp at h2
        simp [h2]
    simp only [no_adj_ws]
    rw [hd, h1]
    rfl

theorem no_adj_ws_tail (c : Char) (t : List Char) (h : no_adj_ws (c :: t) = true) :
    no_adj_ws t = true := by
  cases t with
  | nil => rfl
  | cons d r =>
    simp only [no_adj_ws, Bool.and_eq_true] at h
    exact h.2

theorem collapseAux_props (s : List Char) : ∀ b : Bool,
    all_ws_space (collapseAux b s) = true ∧ no_adj_ws (collapseAux b s) = true ∧
      (b = true → no_lead_ws (collapseAux b s) = true) := by
  induction s with
  | nil => exact fun b => ⟨rfl, rfl, fun _ => rfl⟩
  | cons c t ih =>
    intro b
    by_cases hc : isWS c = true
    · cases b with
      | true =>
        have heq : collapseAux true (c :: t) = collapseAux true t := by
          simp [collapseAux, hc]
        rw [heq]
        exact ⟨(ih true).1, (ih true).2.1, fun _ => (ih true).2.2 rfl⟩
      | false =>
        have heq : collapseAux false (c :: t) = ' ' :: collapseAux true t := by
          simp [collapseAux, hc]
        rw [heq]
        refine ⟨?_, ?_, fun hb => by cases hb⟩
        · rw [all_ws_space_cons, (ih true).1]
          rfl
        · exact no_adj_ws_cons ' ' _ (ih true).2.1 (Or.inr ((ih true).2.2 rfl))
    · have hcf : isWS c = false := by simpa using hc
      have heq : collapseAux b (c :: t) = c :: collapseAux false t := by
        cases b <;> simp [collapseAux, hcf]
      rw [heq]
      refine ⟨?_, ?_, fun _ => ?_⟩
      · rw [all_ws_space_cons, (ih false).1, hcf]
        rfl
      · exact no_adj_ws_cons c _ (ih false).2.1 (Or.inl hcf)
      · simp [no_lead_ws, hcf]

theorem no_lead_ws_dropWhile (s : List Char) :
    no_lead_ws (s.dropWhile isWS) = true := by
  induction s with
  | nil => rfl
  | cons c t ih =>
    rw [List.dropWhile_cons]
    by_cases hc : isWS c = true
    · rw [if_pos hc]; exact ih
    · rw [if_neg hc]
      simp [no_lead_ws, hc]

theorem all_ws_space_dropWhile (s : List Char) (h : all_ws_space s = true) :
    all_ws_space (s.dropWhile isWS) = true := by
  induction s with
  | nil => rfl
  | cons c t ih =>
    rw [all_ws_space_cons, Bool.and_eq_true] at h
    rw [List.dropWhile_cons]
    by_cases hc : isWS c = true
    · rw [if_pos hc]; exact ih h.2
    · rw [if_neg hc, all_ws_space_cons, h.1, h.2]
      rfl

theorem no_adj_ws_dropWhile (s : List Char) (h : no_adj_ws s = true) :
    no_adj_ws (s.dropWhile isWS) = true := by
  induction s with
  | nil => rfl
  | cons c t ih =>
    rw [List.dropWhile_cons]
    by_cases hc : isWS c = true
    · rw [if_pos hc]; exact ih (no_adj_ws_tail c t h)
    · rw [if_neg hc]; exact h

theorem dropTrailWS_cons_nil (c : Char) (t : List Char) (h : dropTrailWS t = []) :
    dropTrailWS (c :: t) = if isWS c then [] else [c] := by
  show (match dropTrailWS t with
        | [] => if isWS c then [] else [c]
        | r => c :: r) = if isWS c then [] else [c]
  rw [h]

theorem dropTrailWS_cons_cons (c d : Char) (t r : List Char)
    (h : dropTrailWS t = d :: r) :
    dropTrailWS (c :: t) = c :: d :: r := by
  show (match dropTrailWS t with
        | [] => if isWS c then [] else [c]
        | r => c :: r) = c :: d :: r
  rw [h]

theorem dropTrailWS_head (c : Char) (t : List Char) :
    dropTrailWS (c :: t) = [] ∨ ∃ r, dropTrailWS (c :: t) = c :: r := by
  cases h : dropTrailWS t with
  | nil =>
    by_cases hc : isWS c = true
    · left; rw [dropTrailWS_cons_nil c t h, if_pos hc]
    · right
      exact ⟨[], by rw [dropTrailWS_cons_nil c t h, if_neg hc]⟩
  | cons d r => right; exact ⟨d :: r, dropTrailWS_cons_cons c d t r h⟩

theorem no_lead_ws_dropTrailWS (s : List Char) (h : no_lead_ws s = true) :
    no_lead_ws (dropTrailWS s) = true := by
  cases s with
  | nil => rfl
  | cons c t =>
    rcases dropTrailWS_head c t with h1 | ⟨r, h1⟩ <;> rw [h1]
    · rfl
    · exact h

theorem no_trail_ws_dropTrailWS (s : List Char) :
    no_trail_ws (dropTrailWS s) = true := by
  induction s with
  | nil => rfl
  | cons c t ih =>
    cases h : dropTrailWS t with
    | nil =>
      by_cases hc : isWS c = true
      · rw [dropTrailWS_cons_nil c t h, if_pos hc]; rfl
      · rw [dropTrailWS_cons_nil c t h, if_neg hc]
        simp [no_trail_ws, hc]
    | cons d r =>
      rw [dropTrailWS_cons_cons c d t r h]
      show no_trail_ws (d :: r) = true
      rw [← h]
      exact ih

theorem all_ws_space_dropTrailWS (s : List Char) (h : all_ws_space s = true) :
    all_ws_space (dropTrailWS s) = true := by
  induction s with
  | nil => rfl
  | cons c t ih =>
    rw [all_ws_space_cons, Bool.and_eq_true] at h
    cases hdt : dropTrailWS t with
    | nil =>
      by_cases hc : isWS c = true
      · rw [dropTrailWS_cons_nil c t hdt, if_pos hc]; rfl
      · rw [dropTrailWS_cons_nil c t hdt, if_neg hc, all_ws_space_cons, h.1]
        rfl
    | cons d r =>
      rw [dropTrailWS_cons_cons c d t r hdt, all_ws_space_cons, h.1]
      have h2 := ih h.2
      rw [hdt] at h2
      rw [h2]
      rfl

theorem no_adj_ws_dropTrailWS (s : List Char) (h : no_adj_ws s = true) :
    no_adj_ws (dropTrailWS s) = true := by
  induction s with
  | nil => rfl
  | cons c t ih =>
    cases hdt : dropTrailWS t with
    | nil =>
      by_cases hc : isWS c = true
      · rw [dropTrailWS_cons_nil c t hdt, if_pos hc]; rfl
      · rw [dropTrailWS_cons_nil c t hdt, if_neg hc]; rfl
    | cons d r =>
      rw [dropTrailWS_cons_cons c d t r hdt]
      cases t with
      | nil => cases hdt
      | cons e t' =>
        have hpair : (!(isWS c && isWS e)) = true := by
          have h' := h
          simp only [no_adj_ws, Bool.and_eq_true] at h'
          exact h'.1
        rcases dropTrailWS_head e t' with h1 | ⟨r', h1⟩
        · rw [h1] at hdt; cases hdt
        · rw [h1] at hdt
          injection hdt with h2 h3
          subst h2
          subst h3
          have htail := ih (no_adj_ws_tail c (e :: t') h)
          rw [h1] at htail
          refine no_adj_ws_cons c _ htail ?_
          rcases Bool.eq_false_or_eq_true (isWS c) with hct | hcf
          · right
            have he : isWS e = false := by
              rw [hct] at hpair
              simpa using hpair
            simp [no_lead_ws, he]
          · exact Or.inl hcf

theorem strip_edge_props (s : List Char) :
    no_lead_ws (strip s) = true ∧ no_trail_ws (strip s) = true :=
  ⟨no_lead_ws_dropTrailWS _ (no_lead_ws_dropWhile s), no_trail_ws_dropTrailWS _⟩

theorem strip_run_props (s : List Char) (h1 : all_ws_space s = true)
    (h2 : no_adj_ws s = true) :
    all_ws_space (strip s) = true ∧ no_adj_ws (strip s) = true :=
  ⟨all_ws_space_dropTrailWS _ (all_ws_space_dropWhile s h1),
   no_adj_ws_dropTrailWS _ (no_adj_ws_dropWhile s h2)⟩

/-- Markup with a single contact block, as in the spec's end-to-end
example: anchor text `"  Jane   Doe "`, title `"Associate  Professor"`
(two internal spaces), and href `mailto://jane@example.edu`. -/
def markup_jane : List Char :=
  ("<div class=\"member_name\"><a href=\"content_teacher_detail.php?teacher_rkey=1\">  Jane   Doe </a></div><div class=\"member_info_content\">Associate  Professor</div><a href=\"mailto://jane@example.edu\">").data

/-- Markup with a single contact block whose mailto href contains a
double slash inside the email's local part. -/
def markup_slash : List Char :=
  ("<div class=\"member_name\"><a href=\"content_teacher_detail.php?teacher_rkey=2\">Bob</a><div class=\"member_info_content\">Dean</div><a href=\"mailto:user//x@example.com\">").data

/-- C1 counterexample: on `markup_jane` the extractor emits the title
`"Associate  Professor"` with its internal two-space run intact, so the
title field does not have internal whitespace runs collapsed. -/
theorem C1_counterexample :
    scrape_contacts markup_jane =
      [((("Jane Doe").data, ("Associate  Professor").data,
        ("jane@example.edu").data))] ∧
    no_adj_ws (("Associate  Professor").data) = false := by
  constructor <;> decide

/-- C1 (amended): every record emitted by the extractor has a name whose
whitespace is fully normalized — each whitespace character is an ASCII
space, no two adjacent characters are both whitespace, and there is no
leading or trailing whitespace — while the title is only trimmed: no
leading or trailing whitespace, but internal runs are preserved as
captured. -/
theorem C1_name_normalized_title_trimmed (html : List Char) (r : Contact)
    (h : r ∈ scrape_contacts html) :
    all_ws_space r.1 = true ∧ no_adj_ws r.1 = true ∧ no_lead_ws r.1 = true ∧
    no_trail_ws r.1 = true ∧ no_lead_ws r.2.1 = true ∧ no_trail_ws r.2.1 = true := by
  rw [scrape_contacts] at h
  rcases List.mem_map.mp h with ⟨gs, _, rfl⟩
  refine ⟨(strip_run_props _ (collapseAux_props _ false).1
      (collapseAux_props _ false).2.1).1,
    (strip_run_props _ (collapseAux_props _ false).1
      (collapseAux_props _ false).2.1).2,
    (strip_edge_props _).1, (strip_edge_props _).2,
    (strip_edge_props _).1, (strip_edge_props _).2⟩

theorem C1_witness :
    all_ws_space ((("Jane Doe").data : List Char)) = true ∧
    no_lead_ws ((("Associate  Professor").data : List Char)) = true :=
  ⟨(C1_name_normalized_title_trimmed markup_jane
      ((("Jane Doe").data, ("Associate  Professor").data,
        ("jane@example.edu").data)) (by decide)).1,
   (C1_name_normalized_title_trimmed markup_jane
      ((("Jane Doe").data, ("Associate  Professor").data,
        ("jane@example.edu").data)) (by decide)).2.2.2.2.1⟩

/-- C4 counterexample: on the example markup the extractor does not yield
`("Jane Doe", "Associate Professor", "jane@example.edu")`: the title's
internal double space is not collapsed. -/
theorem C4_counterexample :
    scrape_contacts markup_jane ≠
      [((("Jane Doe").data, ("Associate Professor").data,
        ("jane@example.edu").data))] := by
  decide

/-- C4 (amended): on the example markup the extractor yields exactly the
single tuple `("Jane Doe", "Associate  Professor", "jane@example.edu")` —
name collapsed and trimmed, email artifact removed, but the title keeps
its internal double space. -/
theorem C4_extract_example :
    scrape_contacts markup_jane =
      [((("Jane Doe").data, ("Associate  Professor").data,
        ("jane@example.edu").data))] := by
  decide

/-- C7: whenever the page body contains no block matching the contact
pattern — `findall` returns the empty list — the extractor returns the
empty list. (The extractor is a total function, so no error is possible
on any input.) -/
theorem C7_no_match_empty (html : List Char)
    (h : findall_contacts html = []) :
    scrape_contacts html = [] := by
  rw [scrape_contacts, h]
  rfl

theorem C7_witness :
    findall_contacts (("<p>No staff listed</p>").data) = [] ∧
    scrape_contacts (("<p>No staff listed</p>").data) = [] :=
  ⟨by decide, C7_no_match_empty (("<p>No staff listed</p>").data) (by decide)⟩

/-- C10: for every matched block, the emitted email is the raw captured
mailto-href text with the occurrences of `//` deleted — anywhere in the
string, by `replace_dslash` — and then whitespace-stripped; on a block
whose email contains an interior `//`, the emitted email is altered. -/
theorem C10_email_dslash :
    (∀ html : List Char,
      (scrape_contacts html).map (fun r => r.2.2) =
        (findall_contacts html).map
          (fun gs => strip (replace_dslash (gs.getD 2 [])))) ∧
    scrape_contacts markup_slash =
      [((("Bob").data, ("Dean").data, ("userx@example.com").data))] ∧
    ("userx@example.com").data ≠ ("user//x@example.com").data := by
  refine ⟨?_, by decide, by decide⟩
  intro html
  rw [scrape_contacts, List.map_map]
  rfl
